import Mathlib

/-!
Verification development for the termsnap repository: a shallow embedding in
Lean 4 of the byte ring buffer (`src/ringbuffer.rs`), the SVG renderer and
screen snapshot (`termsnap-lib/src/lib.rs`, `termsnap-lib/src/colors.rs`),
the ANSI callback wrapper (`termsnap-lib/src/ansi.rs`) and the
non-interactive PTY proxy loop (`src/main.rs`), together with theorems that
settle the frozen claims about those components.

Machine integers: the Rust code uses `usize`/`u16`/`u8` but all the modelled
quantities (indices, lengths, byte values) stay far below any overflow
boundary on the inputs considered, so they are modelled as `Nat`.
-/

/-! ## Basic data model (termsnap-lib/src/lib.rs)

`Rgb` is the sRGB color triple, `Cell` a single grid cell, and `Screen` the
immutable snapshot `(lines, columns, cells)` in row-major order.
-/

/-- A color in the sRGB color space (struct `Rgb` with `u8` components). -/
structure Rgb where
  r : Nat
  g : Nat
  b : Nat
deriving DecidableEq, Repr

/-- The unicode character and style of a single cell in the terminal grid
(struct `Cell`). -/
structure Cell where
  c : Char
  fg : Rgb
  bg : Rgb
  bold : Bool
  italic : Bool
  underline : Bool
  strikethrough : Bool
deriving DecidableEq, Repr

/-- The default Solarized-Dark cell: space glyph, fg `#839496`, bg `#002b36`,
all flags cleared. -/
def defaultCell : Cell :=
  { c := ' '
  , fg := ⟨0x83, 0x94, 0x96⟩
  , bg := ⟨0x00, 0x2b, 0x36⟩
  , bold := false
  , italic := false
  , underline := false
  , strikethrough := false }

/-- A static snapshot of a terminal screen (struct `Screen`): `cells` holds
`lines * columns` cells in row-major order. -/
structure Screen where
  lines : Nat
  columns : Nat
  cells : List Cell
deriving DecidableEq, Repr

namespace Screen

/-- Row-major index into `cells` (method `Screen::idx`). -/
def idx (s : Screen) (y x : Nat) : Nat :=
  y * s.columns + x

/-- Method `Screen::get`: `self.cells.get(self.idx(line, column))`; a flat
lookup with no per-axis bounds check on the column. -/
def get (s : Screen) (line column : Nat) : Option Cell :=
  s.cells.get? (s.idx line column)

/-- Total cell lookup used by the renderer model; the Rust code only indexes
in bounds, and out-of-range accesses return the default cell here. -/
def cellAt (s : Screen) (y x : Nat) : Cell :=
  (s.cells.getD (s.idx y x) defaultCell)

/-- Background color of the cell at `(y, x)`. -/
def bgAt (s : Screen) (y x : Nat) : Rgb :=
  (s.cellAt y x).bg

end Screen

/-! ## Byte ring buffer (src/ringbuffer.rs)

`Ringbuffer<const C: usize>` holds `buf : [u8; C]` with a `write_idx` and a
`read_idx`.  `read` pulls bytes from a source in at most two passes; the
source is modelled as the list of bytes it still has to offer (each
underlying `read` call hands over `min(slice length, bytes remaining)`
bytes, and `0` bytes signals EOF, exactly like `Read::read` on a slice).
-/

/-- The ring buffer `(buf[C], write_idx, read_idx)`. -/
structure Ringbuffer where
  cap : Nat
  buf : List Nat
  writeIdx : Nat
  readIdx : Nat
deriving DecidableEq, Repr

/-- Status half of `IoResult`: `Ok`, `EOF` or `Err` (the error payload is
irrelevant for the claims). -/
inductive RbStatus where
  | ok
  | eof
  | err
deriving DecidableEq, Repr

/-- Result of `Ringbuffer::read` in the model: new buffer state, total bytes
taken from the source, length of the returned `Bytes` iterator, and status. -/
structure RbReadResult where
  rb : Ringbuffer
  consumed : Nat
  reported : Nat
  status : RbStatus
deriving DecidableEq, Repr

namespace Ringbuffer

/-- `Ringbuffer::new`: zeroed buffer, both indices 0. -/
def new (c : Nat) : Ringbuffer :=
  { cap := c, buf := List.replicate c 0, writeIdx := 0, readIdx := 0 }

/-- Method `len`: `if write_idx < read_idx { write_idx + C - read_idx } else
{ write_idx - read_idx }`. -/
def len (rb : Ringbuffer) : Nat :=
  if rb.writeIdx < rb.readIdx then rb.writeIdx + rb.cap - rb.readIdx
  else rb.writeIdx - rb.readIdx

/-- Method `is_empty`: `len() == 0`. -/
def isEmpty (rb : Ringbuffer) : Bool :=
  rb.len == 0

/-- Method `is_full`: `len() == C`. -/
def isFull (rb : Ringbuffer) : Bool :=
  rb.len == rb.cap

/-- Length of the contiguous range of unwritten bytes (method `unfilled`):
`write_idx .. (if read_idx <= write_idx { C } else { read_idx })`. -/
def unfilledLen (rb : Ringbuffer) : Nat :=
  (if rb.readIdx ≤ rb.writeIdx then rb.cap else rb.readIdx) - rb.writeIdx

/-- Write the bytes of `data` into `buf` starting at position `i`. -/
def setFrom : List Nat → Nat → List Nat → List Nat
  | buf, _, [] => buf
  | buf, i, b :: rest => setFrom (buf.set i b) (i + 1) rest

/-- One pass of the `for _ in 0..2` loop in `Ringbuffer::read`: fill the
contiguous unfilled slice from the source, advance `write_idx`, wrapping it
to 0 when it reaches `C`.  Returns the new state, the rest of the source,
the bytes transferred this pass, and the slice length offered. -/
def readPass (rb : Ringbuffer) (src : List Nat) :
    Ringbuffer × List Nat × Nat × Nat :=
  let stop := if rb.readIdx ≤ rb.writeIdx then rb.cap else rb.readIdx
  let m := stop - rb.writeIdx
  let k := min m src.length
  let buf := setFrom rb.buf rb.writeIdx (src.take k)
  let w := rb.writeIdx + k
  ({ rb with buf := buf, writeIdx := if w = rb.cap then 0 else w }, src.drop k, k, m)

/-- Method `Ringbuffer::read` against a slice-like source: up to two passes;
a pass transferring 0 bytes while free space was offered marks EOF; the
second pass runs only when the first pass completely filled its slice.  The
`reported` field is the number of bytes the returned `Bytes` iterator yields
(from the initial `write_idx` to the final one, wrapping around). -/
def read (rb : Ringbuffer) (src : List Nat) : RbReadResult :=
  let start := rb.writeIdx
  let reportFrom := fun (rb2 : Ringbuffer) =>
    if rb2.writeIdx < start then rb2.writeIdx + rb2.cap - start
    else rb2.writeIdx - start
  if rb.unfilledLen = 0 then
    ⟨rb, 0, reportFrom rb, .ok⟩
  else
    let p1 := rb.readPass src
    let rb1 := p1.1
    let src1 := p1.2.1
    let k1 := p1.2.2.1
    let m1 := p1.2.2.2
    if k1 = 0 then ⟨rb1, 0, reportFrom rb1, .eof⟩
    else if k1 < m1 then ⟨rb1, k1, reportFrom rb1, .ok⟩
    else if rb1.unfilledLen = 0 then ⟨rb1, k1, reportFrom rb1, .ok⟩
    else
      let p2 := rb1.readPass src1
      let rb2 := p2.1
      let k2 := p2.2.2.1
      if k2 = 0 then ⟨rb2, k1, reportFrom rb2, .eof⟩
      else ⟨rb2, k1 + k2, reportFrom rb2, .ok⟩

end Ringbuffer

/-! ## Non-interactive proxy loop state (src/main.rs, fn non_interactive)

The loop pieces the claims quantify over are modelled as pure functions:
the EOT state machine, the stdin-ring refill branch that splices emulator
responses or the EOT sequence, the EOF transition, and the poll-slot-0
gating condition.  The stdin ring contents are abstracted as the list of
queued bytes (the claims' scenarios push at most two bytes into the empty
4096-byte ring, far from the wrap-around edge cases), and response
fragments as byte lists.  Time is in milliseconds.
-/

/-- ASCII End of Transmission byte (`const END_OF_TRANSMISSION: u8 = 0x04`). -/
def END_OF_TRANSMISSION : Nat := 0x04

/-- The `enum EotState { None, SendEot, SentEot(Instant) }` of
`non_interactive`, with `Instant` as milliseconds. -/
inductive EotState where
  | none
  | sendEot
  | sentEot (t0 : Nat)
deriving DecidableEq, Repr

/-- The `send_eot` computation at the top of each loop iteration:
`None => false`, `SendEot => true`,
`SentEot(instant) => now.duration_since(instant).as_millis() >= 500`. -/
def sendEotOf : EotState → Nat → Bool
  | .none, _ => false
  | .sendEot, _ => true
  | .sentEot t0, now => decide (500 ≤ now - t0)

/-- The `if stdin_buf.is_empty()` branch of the loop: pop one outbound
response fragment into the ring, or else push the EOT sequence (`\x04` when
the last byte written to the PTY was `\r`, `\r\x04` otherwise) and move to
`SentEot(now)`.  Returns the new ring contents, queue, and EOT state. -/
def stdinSpecialPhase (ring : List Nat) (queue : List (List Nat))
    (eot : EotState) (lastWrittenByte : Nat) (now : Nat) :
    List Nat × List (List Nat) × EotState :=
  if ring.isEmpty then
    match queue with
    | text :: rest => (ring ++ text, rest, eot)
    | [] =>
      if sendEotOf eot now then
        let seq := if lastWrittenByte = 0x0D then [END_OF_TRANSMISSION]
                   else [0x0D, END_OF_TRANSMISSION]
        (ring ++ seq, [], .sentEot now)
      else (ring, [], eot)
  else (ring, queue, eot)

/-- The reaction to the parent-stdin read result (`poll_result[0]` branch):
`IoResult::EOF(_) | IoResult::Err { .. }` flips the state to `SendEot`. -/
def stdinReadUpdate (eot : EotState) (res : RbStatus) : EotState :=
  match res with
  | .eof => .sendEot
  | .err => .sendEot
  | .ok => eot

/-- The response-sink closure handed to `Term::new`: push the fragment only
while fewer than 128 fragments are queued, drop it silently otherwise. -/
def enqueueResponse (queue : List (List Nat)) (text : List Nat) :
    List (List Nat) :=
  if queue.length < 128 then queue ++ [text] else queue

/-- The `read_stdin` poll gate: `!stdin_buf.is_full() &&
matches!(eot_state, EotState::None) && pty_write.borrow().is_empty()`. -/
def readStdinFlag (stdinFull : Bool) (eot : EotState)
    (queue : List (List Nat)) : Bool :=
  !stdinFull && (match eot with | .none => true | _ => false) && queue.isEmpty

/-! ## Helper lemmas -/

/-- Characterization of `List.get?` success in terms of the index bound. -/
theorem listGet?_isSome_iff {α : Type} (l : List α) (n : Nat) :
    (l.get? n).isSome = true ↔ n < l.length := by
  constructor
  · intro h
    by_contra hlt
    rw [List.get?_eq_none.mpr (Nat.le_of_not_lt hlt)] at h
    simp at h
  · intro h
    rw [List.get?_eq_get h]
    rfl

/-! ## Claim theorems: ring buffer (C2, C9) -/

/-- C2 (code evaluated at the failing input): a single `read()` that fills
an empty `Ringbuffer<4>` with exactly 4 bytes takes all 4 bytes from the
source but leaves `len() == 0` — `write_idx` wraps onto `read_idx`, the
state is indistinguishable from empty, the returned `Bytes` iterator is
empty, and the result is the `EOF` variant.  The claim's accounting
`len == Σpushed − Σpopped` demands `len() == 4` here. -/
theorem ringbuffer_exact_fill_loses_bytes :
    (Ringbuffer.read (Ringbuffer.new 4) [1, 2, 3, 4]).consumed = 4 ∧
    (Ringbuffer.read (Ringbuffer.new 4) [1, 2, 3, 4]).rb.len = 0 ∧
    (Ringbuffer.read (Ringbuffer.new 4) [1, 2, 3, 4]).rb.writeIdx = 0 ∧
    (Ringbuffer.read (Ringbuffer.new 4) [1, 2, 3, 4]).rb.readIdx = 0 ∧
    (Ringbuffer.read (Ringbuffer.new 4) [1, 2, 3, 4]).reported = 0 ∧
    (Ringbuffer.read (Ringbuffer.new 4) [1, 2, 3, 4]).status = .eof := by
  decide

/-- C9 (code evaluated at the failing input): after `read()` pulls exactly
`C = 4` bytes into an empty ring, `is_full()` is `false` (the claim says
`true`), and the next `read()` does not return `Ok` with 0 bytes: on an
exhausted source it returns the `EOF` variant, and on a source with more
data it transfers 4 further bytes, overwriting the unread ones. -/
theorem ringbuffer_exact_fill_not_full :
    (Ringbuffer.read (Ringbuffer.new 4) [1, 2, 3, 4]).rb.isFull = false ∧
    (Ringbuffer.read (Ringbuffer.read (Ringbuffer.new 4) [1, 2, 3, 4]).rb
      []).status = .eof ∧
    (Ringbuffer.read (Ringbuffer.read (Ringbuffer.new 4) [1, 2, 3, 4]).rb
      [5, 6, 7, 8]).consumed = 4 ∧
    (Ringbuffer.read (Ringbuffer.read (Ringbuffer.new 4) [1, 2, 3, 4]).rb
      [5, 6, 7, 8]).rb.buf = [5, 6, 7, 8] := by
  decide

/-! ## Claim theorems: non-interactive loop (C5, C7) -/

/-- C5: `send_eot` is `false` in state `None`, `true` in `SendEot`, and in
`SentEot(t0)` true iff `now − t0 ≥ 500` ms; when the stdin ring and the
response queue are both empty and `send_eot` holds, the refill branch
enqueues `\x04` if the last byte written to the PTY was `\r` and `\r\x04`
otherwise and moves the state to `SentEot(now)`; EOF or a non-ignored error
on parent stdin moves the state to `SendEot`. -/
theorem eot_state_machine_spec :
    (∀ now, sendEotOf .none now = false) ∧
    (∀ now, sendEotOf .sendEot now = true) ∧
    (∀ now t0, sendEotOf (.sentEot t0) now = true ↔ 500 ≤ now - t0) ∧
    (∀ (ring : List Nat) queue eot lastByte now,
      ring = [] → queue = [] → sendEotOf eot now = true →
      stdinSpecialPhase ring queue eot lastByte now =
        ((if lastByte = 0x0D then [END_OF_TRANSMISSION]
          else [0x0D, END_OF_TRANSMISSION]), [], .sentEot now)) ∧
    (∀ eot, stdinReadUpdate eot .eof = .sendEot ∧
            stdinReadUpdate eot .err = .sendEot) := by
  refine ⟨fun _ => rfl, fun _ => rfl, fun now t0 => by simp [sendEotOf], ?_,
    fun _ => ⟨rfl, rfl⟩⟩
  intro ring queue eot lastByte now hr hq hs
  subst hr; subst hq
  simp [stdinSpecialPhase, hs]

/-- Witness for `eot_state_machine_spec` at concrete inputs: in state
`SendEot` with empty ring and queue and `last_written_byte = 0`, the refill
branch queues `\r\x04` and moves to `SentEot(7)`. -/
theorem eot_state_machine_spec_witness :
    stdinSpecialPhase [] [] .sendEot 0 7 =
      ([0x0D, END_OF_TRANSMISSION], [], .sentEot 7) :=
  eot_state_machine_spec.2.2.2.1 [] [] .sendEot 0 7 rfl rfl rfl

/-- C7: the response queue never grows past 128 fragments and a fragment
produced at 128 is dropped with the queue unchanged; fragments leave the
queue only when the stdin ring is empty, at most one per iteration and from
the front (FIFO); and parent stdin is not polled for reading while the
queue is non-empty or an EOT is pending. -/
theorem response_queue_discipline :
    (∀ (queue : List (List Nat)) text, queue.length ≤ 128 →
      (enqueueResponse queue text).length ≤ 128) ∧
    (∀ (queue : List (List Nat)) text, queue.length = 128 →
      enqueueResponse queue text = queue) ∧
    (∀ (ring : List Nat) queue eot lastByte now, ring ≠ [] →
      (stdinSpecialPhase ring queue eot lastByte now).2.1 = queue) ∧
    (∀ (text : List Nat) rest eot lastByte now,
      stdinSpecialPhase [] (text :: rest) eot lastByte now =
        (text, rest, eot)) ∧
    (∀ stdinFull eot (queue : List (List Nat)), queue ≠ [] ∨ eot ≠ .none →
      readStdinFlag stdinFull eot queue = false) := by
  refine ⟨?_, ?_, ?_, ?_, ?_⟩
  · intro queue text h
    unfold enqueueResponse
    split
    · simp only [List.length_append, List.length_cons, List.length_nil]
      omega
    · exact h
  · intro queue text h
    unfold enqueueResponse
    simp [h]
  · intro ring queue eot lastByte now h
    unfold stdinSpecialPhase
    simp [List.isEmpty_iff, h]
  · intro text rest eot lastByte now
    rfl
  · intro stdinFull eot queue h
    unfold readStdinFlag
    rcases h with h | h
    · simp [List.isEmpty_iff, h]
    · cases eot with
      | none => exact absurd rfl h
      | sendEot => simp
      | sentEot t0 => simp

/-- Witness for `response_queue_discipline` at concrete inputs: a fragment
offered to a full queue of 128 entries is dropped, and with a pending EOT
the stdin poll slot is disabled. -/
theorem response_queue_discipline_witness :
    enqueueResponse (List.replicate 128 [0]) [1] = List.replicate 128 [0] ∧
    readStdinFlag false .sendEot [] = false :=
  ⟨response_queue_discipline.2.1 (List.replicate 128 [0]) [1] (by simp),
   response_queue_discipline.2.2.2.2 false .sendEot []
     (Or.inr (by intro h; cases h))⟩

/-! ## Claim theorems: Screen::get (C10) -/

/-- C10: `Screen::get` performs no per-axis bounds check on the column: for
a well-formed screen it returns `Some` of the cell at row-major index
`line·W + column` exactly when that flat index is below `L·W`, even when
`column ≥ W`, and `None` exactly when `line·W + column ≥ L·W`. -/
theorem screen_get_flat_index (s : Screen) (line column : Nat)
    (hlen : s.cells.length = s.lines * s.columns) :
    ((s.get line column).isSome = true ↔
      line * s.columns + column < s.lines * s.columns) ∧
    s.get line column = s.cells.get? (line * s.columns + column) ∧
    (s.get line column = none ↔
      s.lines * s.columns ≤ line * s.columns + column) := by
  refine ⟨?_, rfl, ?_⟩
  · rw [Screen.get, Screen.idx, listGet?_isSome_iff, hlen]
  · rw [Screen.get, Screen.idx, List.get?_eq_none, hlen]

/-- A concrete 2×3 screen whose six cells carry distinct glyphs `a`–`f`. -/
def screen2x3 : Screen :=
  { lines := 2
  , columns := 3
  , cells := [{ defaultCell with c := 'a' }, { defaultCell with c := 'b' },
              { defaultCell with c := 'c' }, { defaultCell with c := 'd' },
              { defaultCell with c := 'e' }, { defaultCell with c := 'f' }] }

/-- Witness for `screen_get_flat_index`: on the 2×3 screen, `get 0 5` with
column `5 ≥ 3` still succeeds (the flat index 5 is in range and the cell
belongs to row 1). -/
theorem screen_get_flat_index_witness :
    (screen2x3.get 0 5).isSome = true ↔ 0 * 3 + 5 < 2 * 3 :=
  (screen_get_flat_index screen2x3 0 5 (by decide)).1

/-! ## Text run encoding (termsnap-lib/src/lib.rs, TextLine::chars and fmt_text)

`TextLine::chars` drops trailing whitespace from a run; the body loop of
`fmt_text` encodes each character, tracking whether the previous character
of the run was a space.  The emitted bytes are modelled as `List Char`.
-/

/-- The characters `&#160;` a doubled space is escaped to. -/
def nbspEntity : List Char := ['&', '#', '1', '6', '0', ';']

/-- The characters `&lt;` the `<` glyph is escaped to. -/
def ltEntity : List Char := ['&', 'l', 't', ';']

/-- The characters `&amp;` the `&` glyph is escaped to. -/
def ampEntity : List Char := ['&', 'a', 'm', 'p', ';']

/-- Method `TextLine::chars`: count the trailing whitespace characters by
searching the reversed run for the first non-whitespace character, and keep
the prefix before them. -/
def trimTrailing (text : List Char) : List Char :=
  let trailing := (text.reverse.findIdx? (fun c => !c.isWhitespace)).getD text.length
  text.take (text.length - trailing)

/-- The character loop of `fmt_text`, carrying `prev_char_was_space`: a
space becomes `&#160;` after a space and a literal space otherwise; `<` and
`&` are escaped; everything else is copied. -/
def encodeGo (prevWasSpace : Bool) : List Char → List Char
  | [] => []
  | c :: rest =>
    (if c = ' ' then (if prevWasSpace then nbspEntity else [' '])
     else if c = '<' then ltEntity
     else if c = '&' then ampEntity
     else [c]) ++ encodeGo (c = ' ') rest

/-- Character encoding of a text run (the loop of `fmt_text` started with
`prev_char_was_space = false`). -/
def encodeChars (cs : List Char) : List Char :=
  encodeGo false cs

/-- The text between `<text …>` and `</text>` for a run: trailing
whitespace trimmed, then each character encoded. -/
def fmtTextBody (text : List Char) : List Char :=
  encodeChars (trimTrailing text)

/-- Encoding of one character as the claim states it, in terms of the
immediately preceding character of the run (`none` for the first one). -/
def specEncodeChar (prev : Option Char) (c : Char) : List Char :=
  if c = ' ' then (if prev = some ' ' then nbspEntity else [' '])
  else if c = '<' then ltEntity
  else if c = '&' then ampEntity
  else [c]

/-- The claim's run encoding: each character encoded with knowledge of its
predecessor in the run. -/
def specEncodeGo (prev : Option Char) : List Char → List Char
  | [] => []
  | c :: rest => specEncodeChar prev c ++ specEncodeGo (some c) rest

/-- The claim's encoding of a whole run (no predecessor before the first
character). -/
def specEncodeRun (cs : List Char) : List Char :=
  specEncodeGo none cs

/-- The boolean flag carried by the source loop agrees with the
claim's previous-character view. -/
theorem encodeGo_eq_specEncodeGo (cs : List Char) :
    ∀ prev : Option Char, specEncodeGo prev cs = encodeGo (prev == some ' ') cs := by
  induction cs with
  | nil => intro prev; rfl
  | cons c rest ih =>
    intro prev
    simp only [specEncodeGo, encodeGo, specEncodeChar, ih (some c)]
    by_cases h : c = ' '
    · by_cases hp : prev = some ' ' <;> simp [h, hp]
    · have hc : (c == ' ') = false := by simp [h]
      simp [h, hc]

/-- C6: inside one emitted text run, after trailing whitespace is trimmed,
every character is encoded according to its predecessor in the run — a
space is literal after a non-space and `&#160;` after a space, `<` becomes
`&lt;`, `&` becomes `&amp;`, everything else is verbatim; in particular two
consecutive spaces yield one literal space then one `&#160;`, as on the run
`a␣␣b␣␣` whose trailing spaces are trimmed first. -/
theorem text_run_encoding :
    (∀ cs : List Char, encodeChars cs = specEncodeRun cs) ∧
    encodeChars [' ', ' '] = ' ' :: nbspEntity ∧
    fmtTextBody ['a', ' ', ' ', 'b', ' ', ' '] =
      'a' :: ' ' :: nbspEntity ++ ['b'] := by
  refine ⟨fun cs => (encodeGo_eq_specEncodeGo cs none).symm, by decide, by decide⟩

/-! ## Majority background color (termsnap-lib/src/colors.rs)

`most_common_color` counts the background colors of all cells in a hash
map keyed by the color value under a fixed identity-like hasher and takes a
key with the maximal count.  The map iteration order is a fixed function of
the inserted keys; it is modelled here as first-occurrence order with a
deterministic tie-break (keep the earlier maximal entry).  For screens with
one strictly most common background — every screen the claims evaluate the
function on — the result does not depend on that order.
-/

/-- Increment the count of `c` in an association list, keeping
first-occurrence order. -/
def bumpCount : List (Rgb × Nat) → Rgb → List (Rgb × Nat)
  | [], c => [(c, 1)]
  | (c', n) :: rest, c =>
    if c' = c then (c', n + 1) :: rest else (c', n) :: bumpCount rest c

/-- The per-background-color occurrence counts of a screen. -/
def bgCounts (s : Screen) : List (Rgb × Nat) :=
  s.cells.foldl (fun acc cell => bumpCount acc cell.bg) []

/-- Function `most_common_color`: a background color of maximal count, or
`#000000` for a screen with no cells. -/
def mostCommonColor (s : Screen) : Rgb :=
  match (bgCounts s).foldl
      (fun best entry =>
        match best with
        | Option.none => some entry
        | some (bc, bn) => if bn < entry.2 then some entry else some (bc, bn))
      Option.none with
  | some (c, _) => c
  | Option.none => ⟨0, 0, 0⟩

/-! ## Background rectangle coalescing (termsnap-lib/src/lib.rs, Svg::fmt)

The greedy flood in `Svg::fmt` scans cells in row-major order; an un-drawn
cell whose background differs from the majority starts a rectangle that is
extended right along its row and then down row by row, after which the
covered cells are marked in the `drawn` vector and one `<rect>` is pushed.
The scan is parametrized by the extension rule so that the source rule and
the claim's rule plug into the same loop skeleton.
-/

/-- One emitted background `<rect>`: grid corner coordinates (inclusive)
and fill color. -/
structure BgRect where
  x0 : Nat
  y0 : Nat
  x1 : Nat
  y1 : Nat
  color : Rgb
deriving DecidableEq, Repr

/-- Keep absorbing the next position while the predicate accepts it; fuel
counts the remaining candidates. -/
def extendScanFuel (p : Nat → Bool) : Nat → Nat → Nat
  | 0, cur => cur
  | fuel + 1, cur => if p (cur + 1) then extendScanFuel p fuel (cur + 1) else cur

/-- Walk from `cur` over candidates `cur+1, cur+2, …` strictly below
`stop`, stopping at the first one the predicate rejects; returns the last
accepted position. -/
def extendScan (p : Nat → Bool) (stop cur : Nat) : Nat :=
  extendScanFuel p (stop - (cur + 1)) cur

/-- The source's rectangle extension (`Svg::fmt` lines 433–460): `end_x`
grows over `x1 in x0+1..columns` while the cell background matches,
breaking at the first mismatch; `end_y` grows over `y1 in y0+1..lines`
while every `x1 in x0+1..columns` on row `y1` matches, breaking at the
first row that fails. -/
def srcExtend (s : Screen) (bg : Rgb) (y0 x0 : Nat) : Nat × Nat :=
  let endX := x0 + ((List.range' (x0 + 1) (s.columns - (x0 + 1))).takeWhile
    (fun x1 => s.bgAt y0 x1 == bg)).length
  let endY := y0 + ((List.range' (y0 + 1) (s.lines - (y0 + 1))).takeWhile
    (fun y1 => (List.range' (x0 + 1) (s.columns - (x0 + 1))).all
      (fun x1 => s.bgAt y1 x1 == bg))).length
  (endX, endY)

/-- The claim's rectangle extension: rightward to the maximal `end_x` whose
whole segment matches, then downward while every column in `[x0+1, end_x]`
matches on the candidate row. -/
def claimExtend (s : Screen) (bg : Rgb) (y0 x0 : Nat) : Nat × Nat :=
  let endX := extendScan (fun x1 => s.bgAt y0 x1 == bg) s.columns x0
  let endY := extendScan
    (fun y1 => (List.range' (x0 + 1) (endX - x0)).all
      (fun x1 => s.bgAt y1 x1 == bg)) s.lines y0
  (endX, endY)

/-- The claim's extension with the vertical test amended to check every
column in `[x0+1, columns−1]`, as the code does. -/
def claimExtendAmended (s : Screen) (bg : Rgb) (y0 x0 : Nat) : Nat × Nat :=
  let endX := extendScan (fun x1 => s.bgAt y0 x1 == bg) s.columns x0
  let endY := extendScan
    (fun y1 => (List.range' (x0 + 1) (s.columns - (x0 + 1))).all
      (fun x1 => s.bgAt y1 x1 == bg)) s.lines y0
  (endX, endY)

/-- One step of the greedy scan, handling the cell at `pos = (y0, x0)`:
skip it when already drawn or on the majority background; otherwise extend
a rectangle by `ext`, mark every covered cell, and emit the rectangle. -/
def rectStep (s : Screen) (mainBg : Rgb)
    (ext : Screen → Rgb → Nat → Nat → Nat × Nat)
    (acc : List Bool × List BgRect) (pos : Nat × Nat) :
    List Bool × List BgRect :=
  let y0 := pos.1
  let x0 := pos.2
  if (acc.1.getD (s.idx y0 x0) false) then acc
  else
    let bg := s.bgAt y0 x0
    if bg = mainBg then acc
    else
      let e := ext s bg y0 x0
      let covered := (List.range' y0 (e.2 + 1 - y0)).flatMap
        (fun y => (List.range' x0 (e.1 + 1 - x0)).map (fun x => s.idx y x))
      (covered.foldl (fun d i => d.set i true) acc.1,
       acc.2 ++ [⟨x0, y0, e.1, e.2, bg⟩])

/-- The row-major positions `(y, x)` of a screen. -/
def rowMajorPositions (s : Screen) : List (Nat × Nat) :=
  (List.range s.lines).flatMap
    (fun y0 => (List.range s.columns).map (fun x0 => (y0, x0)))

/-- The row-major greedy scan of `Svg::fmt`, parametrized by the extension
rule; `drawn` starts as `vec![false; lines * columns]`. -/
def rectScan (s : Screen) (mainBg : Rgb)
    (ext : Screen → Rgb → Nat → Nat → Nat × Nat) : List BgRect :=
  ((rowMajorPositions s).foldl (rectStep s mainBg ext)
    (List.replicate (s.lines * s.columns) false, [])).2

/-- The rectangles emitted by `Svg::fmt` after the majority-background
rectangle, in emission order. -/
def svgRects (s : Screen) (mainBg : Rgb) : List BgRect :=
  rectScan s mainBg srcExtend

/-- The rectangles the claim describes. -/
def claimRects (s : Screen) (mainBg : Rgb) : List BgRect :=
  rectScan s mainBg claimExtend

/-- The rectangles of the claim as amended (vertical test over
`[x0+1, columns−1]`). -/
def claimRectsAmended (s : Screen) (mainBg : Rgb) : List BgRect :=
  rectScan s mainBg claimExtendAmended

/-- Walking while the predicate accepts equals adding the length of the
accepted prefix of the candidate range. -/
theorem extendScanFuel_eq (p : Nat → Bool) :
    ∀ (n cur : Nat), extendScanFuel p n cur =
      cur + ((List.range' (cur + 1) n).takeWhile p).length := by
  intro n
  induction n with
  | zero => intro cur; rfl
  | succ m ih =>
    intro cur
    have hr : List.range' (cur + 1) (m + 1) =
        (cur + 1) :: List.range' (cur + 1 + 1) m := rfl
    rw [extendScanFuel, hr, List.takeWhile_cons]
    by_cases hp : p (cur + 1)
    · rw [if_pos hp, if_pos hp, ih (cur + 1)]
      simp only [List.length_cons]
      omega
    · rw [if_neg hp, if_neg hp]
      simp

/-- Unfolded form of `extendScan` as a `takeWhile` over the candidate
range. -/
theorem extendScan_eq (p : Nat → Bool) (stop cur : Nat) :
    extendScan p stop cur =
      cur + ((List.range' (cur + 1) (stop - (cur + 1))).takeWhile p).length :=
  extendScanFuel_eq p (stop - (cur + 1)) cur

/-- The claim's extension rule with the widened vertical test computes
exactly the source's extension rule. -/
theorem claimExtendAmended_eq_srcExtend : claimExtendAmended = srcExtend := by
  funext s bg y0 x0
  unfold claimExtendAmended srcExtend
  simp only [extendScan_eq]

/-- The 3×3 screen refuting the claim's vertical test: a 2×2 block of
background `B = #101010` bordered on the right and below by the majority
background `M = #002b36`. -/
def exScreenC1 : Screen :=
  { lines := 3
  , columns := 3
  , cells :=
      [{ defaultCell with bg := ⟨16, 16, 16⟩ }
      , { defaultCell with bg := ⟨16, 16, 16⟩ }
      , { defaultCell with bg := ⟨0, 43, 54⟩ }
      , { defaultCell with bg := ⟨16, 16, 16⟩ }
      , { defaultCell with bg := ⟨16, 16, 16⟩ }
      , { defaultCell with bg := ⟨0, 43, 54⟩ }
      , { defaultCell with bg := ⟨0, 43, 54⟩ }
      , { defaultCell with bg := ⟨0, 43, 54⟩ }
      , { defaultCell with bg := ⟨0, 43, 54⟩ }] }

/-- C1 counterexample: on `exScreenC1` (majority background `#002b36`), the
code's scan stops the first rectangle at row 0 — the vertical test looks at
all of columns 1 and 2, and column 2 of row 1 does not match — and so
emits two 2×1 rectangles, while the claim's rule (vertical test over
`[x0+1, end_x] = {1}` only) emits one 2×2 rectangle. -/
theorem svg_rect_vertical_test_counterexample :
    mostCommonColor exScreenC1 = ⟨0, 43, 54⟩ ∧
    svgRects exScreenC1 ⟨0, 43, 54⟩ ≠ claimRects exScreenC1 ⟨0, 43, 54⟩ ∧
    svgRects exScreenC1 ⟨0, 43, 54⟩ =
      [⟨0, 0, 1, 0, ⟨16, 16, 16⟩⟩, ⟨0, 1, 1, 1, ⟨16, 16, 16⟩⟩] ∧
    claimRects exScreenC1 ⟨0, 43, 54⟩ = [⟨0, 0, 1, 1, ⟨16, 16, 16⟩⟩] := by
  refine ⟨by decide, by decide, by decide, by decide⟩

/-- C1 as amended: for every screen and majority color, the rectangles
emitted by `Svg::fmt` are exactly those of the claim's greedy description
with the vertical test ranging over every column in `[x0+1, columns−1]`
(the left-most column of the rectangle still excluded): row-major scan of
un-drawn off-majority cells, maximal rightward extension along the starting
row, downward extension until the first failing row, covered cells marked
drawn, one rectangle emitted per region. -/
theorem svg_rect_coalescing_amended (s : Screen) (mainBg : Rgb) :
    svgRects s mainBg = claimRectsAmended s mainBg := by
  unfold svgRects claimRectsAmended
  rw [claimExtendAmended_eq_srcExtend]

/-! ## Terminal emulator model (spec-modelled)

The emulator behind `Term` is the external `alacritty_terminal`/`vte`
crates, which are not part of this repository.  `Modelled from the spec:`
the VT byte parser (spec §4.3 — states ground / escape / CSI with
parameters, printable code points, linefeed and carriage return) and the
grid-mutating actions (clipped cursor motions, full clear, scrolling that
drops the top row and appends a blank row) are modelled here; the grid is a
`lines × columns` row-major `List Char`.  What IS taken from this
repository's sources is the `HandlerWrapper` of `termsnap-lib/src/ansi.rs`
(which signals fire, and that they fire before mutating), the `Term`
snapshot function, and `emulate`.
-/

/-- The dispatched handler actions relevant to the modelled byte streams
(`vte::ansi::Handler` methods; everything else is `other`, a no-op for the
grid). -/
inductive TermAction where
  | input (c : Char)
  | goto (row col : Nat)
  | linefeed
  | carriageReturn
  | clearScreen (mode : Nat)
  | setPrivateMode (n : Nat)
  | unsetPrivateMode (n : Nat)
  | other
deriving DecidableEq, Repr

/-- The signals surfaced to `process_with_callback` observers (enum
`AnsiSignal` of termsnap-lib/src/ansi.rs). -/
inductive AnsiSignal where
  | clearScreen
  | alternateScreenBuffer (enable : Bool)
deriving DecidableEq, Repr

/-- The numeric code of the DEC private mode
`SwapScreenAndSetRestoreCursor` (DECSET/DECRST parameter 1049). -/
def swapScreenAndSetRestoreCursor : Nat := 1049

/-- The signals `HandlerWrapper` fires for an action, straight from
`termsnap-lib/src/ansi.rs`: `clear_screen` always fires `ClearScreen`;
`set_private_mode` fires `AlternateScreenBuffer { enable: true }` exactly
for mode 1049; `unset_private_mode` the disable variant for 1049; no other
handler method invokes the callback. -/
def signalsOf : TermAction → List AnsiSignal
  | .clearScreen _ => [.clearScreen]
  | .setPrivateMode n =>
    if n = swapScreenAndSetRestoreCursor
    then [.alternateScreenBuffer true] else []
  | .unsetPrivateMode n =>
    if n = swapScreenAndSetRestoreCursor
    then [.alternateScreenBuffer false] else []
  | _ => []

/-- The live terminal state: fixed dimensions, cursor, row-major grid. -/
structure Term where
  lines : Nat
  columns : Nat
  cursorRow : Nat
  cursorCol : Nat
  grid : List Char
deriving DecidableEq, Repr

namespace Term

/-- A fresh terminal: cursor at the origin, grid all spaces. -/
def new (lines columns : Nat) : Term :=
  { lines := lines
  , columns := columns
  , cursorRow := 0
  , cursorCol := 0
  , grid := List.replicate (lines * columns) ' ' }

/-- Scroll the grid one line: drop the top row, append a blank row. -/
def scrollOne (t : Term) : Term :=
  { t with grid := t.grid.drop t.columns ++ List.replicate t.columns ' ' }

/-- Print one code point at the cursor and advance it, wrapping at the end
of the line and scrolling at the bottom of the screen. -/
def putChar (t : Term) (c : Char) : Term :=
  let g := t.grid.set (t.cursorRow * t.columns + t.cursorCol) c
  if t.cursorCol + 1 < t.columns then
    { t with grid := g, cursorCol := t.cursorCol + 1 }
  else if t.cursorRow + 1 < t.lines then
    { t with grid := g, cursorCol := 0, cursorRow := t.cursorRow + 1 }
  else
    ({ t with grid := g, cursorCol := 0 }).scrollOne

/-- Apply one dispatched action to the terminal state.  Cursor targets are
clipped to the grid; `clear_screen` blanks every cell; private-mode changes
do not alter the visible grid in this model. -/
def applyAction (t : Term) : TermAction → Term
  | .input c => t.putChar c
  | .goto row col =>
    { t with cursorRow := min (row - 1) (t.lines - 1)
           , cursorCol := min (col - 1) (t.columns - 1) }
  | .linefeed =>
    if t.cursorRow + 1 < t.lines then { t with cursorRow := t.cursorRow + 1 }
    else t.scrollOne
  | .carriageReturn => { t with cursorCol := 0 }
  | .clearScreen _ =>
    { t with grid := List.replicate (t.lines * t.columns) ' ' }
  | .setPrivateMode _ => t
  | .unsetPrivateMode _ => t
  | .other => t

end Term

/-- Parser states of the VT byte machine (spec §4.3), restricted to the
sequence classes the modelled streams use. -/
inductive PState where
  | ground
  | escape
  | csi (priv : Bool) (params : List Nat) (cur : Nat)
deriving DecidableEq, Repr

/-- Dispatch of a final CSI byte with its accumulated parameters: `H` is
`goto` (absent or zero parameters default to 1), `J` is `clear_screen`,
`h`/`l` with the `?` marker are DECSET/DECRST. -/
def dispatchCsi (priv : Bool) (params : List Nat) (finalByte : Nat) : TermAction :=
  let param := fun (i : Nat) =>
    let v := params.getD i 0
    if v = 0 then 1 else v
  if finalByte = 0x48 then .goto (param 0) (param 1)
  else if finalByte = 0x4A then .clearScreen (params.getD 0 0)
  else if finalByte = 0x68 then
    (if priv then .setPrivateMode (params.getD 0 0) else .other)
  else if finalByte = 0x6C then
    (if priv then .unsetPrivateMode (params.getD 0 0) else .other)
  else .other

/-- One byte through the parser: next parser state plus the action
dispatched at this byte, if any. -/
def parseByte (st : PState) (b : Nat) : PState × Option TermAction :=
  match st with
  | .ground =>
    if b = 0x1B then (.escape, Option.none)
    else if b = 0x0A then (.ground, some .linefeed)
    else if b = 0x0D then (.ground, some .carriageReturn)
    else if 0x20 ≤ b ∧ b ≤ 0x7E then (.ground, some (.input (Char.ofNat b)))
    else (.ground, Option.none)
  | .escape =>
    if b = 0x5B then (.csi false [] 0, Option.none)
    else (.ground, Option.none)
  | .csi priv params cur =>
    if b = 0x3F then (.csi true params cur, Option.none)
    else if 0x30 ≤ b ∧ b ≤ 0x39 then
      (.csi priv params (cur * 10 + (b - 0x30)), Option.none)
    else if b = 0x3B then (.csi priv (params ++ [cur]) 0, Option.none)
    else if 0x40 ≤ b ∧ b ≤ 0x7E then
      (.ground, some (dispatchCsi priv (params ++ [cur]) b))
    else (.csi priv params cur, Option.none)

/-- `Term::process`: advance the parser one byte and apply the dispatched
action, if any. -/
def processByte (st : PState) (t : Term) (b : Nat) : PState × Term :=
  match parseByte st b with
  | (st2, some a) => (st2, t.applyAction a)
  | (st2, Option.none) => (st2, t)

/-- Feed a whole byte stream through `Term::process`. -/
def processAll (st : PState) (t : Term) (bytes : List Nat) : PState × Term :=
  bytes.foldl (fun acc b => processByte acc.1 acc.2 b) (st, t)

/-- `Term::current_screen`: project the grid cell-by-cell into an immutable
`Screen` (colors and flags are the defaults in this model — the modelled
streams set none). -/
def currentScreen (t : Term) : Screen :=
  { lines := t.lines
  , columns := t.columns
  , cells := t.grid.map (fun c => { defaultCell with c := c }) }

/-- Function `emulate` of termsnap-lib: run a fresh terminal over the byte
stream and snapshot it. -/
def emulate (lines columns : Nat) (bytes : List Nat) : Screen :=
  currentScreen (processAll .ground (Term.new lines columns) bytes).2

/-- `Term::process_with_callback`: like `processByte`, but the callback log
records, for each distinguished signal of the dispatched action, the
pre-transition terminal paired with the signal — the `HandlerWrapper`
invokes the callback before applying the action. -/
def processByteCb (st : PState) (t : Term) (log : List (Term × AnsiSignal))
    (b : Nat) : PState × Term × List (Term × AnsiSignal) :=
  match parseByte st b with
  | (st2, some a) =>
    (st2, t.applyAction a, log ++ (signalsOf a).map (fun sg => (t, sg)))
  | (st2, Option.none) => (st2, t, log)

/-- Feed a whole byte stream through `Term::process_with_callback`. -/
def processAllCb (st : PState) (t : Term) (bytes : List Nat) :
    PState × Term × List (Term × AnsiSignal) :=
  bytes.foldl (fun acc b => processByteCb acc.1 acc.2.1 acc.2.2 b) (st, t, [])

/-- Printing one character preserves the terminal dimensions and the
row-major grid size, provided the screen has at least one line. -/
theorem putChar_preserve (t : Term) (c : Char)
    (hl : 1 ≤ t.lines) (hg : t.grid.length = t.lines * t.columns) :
    (t.putChar c).lines = t.lines ∧
    (t.putChar c).columns = t.columns ∧
    (t.putChar c).grid.length = t.lines * t.columns := by
  have hcols : t.columns ≤ t.grid.length := by
    rw [hg]
    calc t.columns = 1 * t.columns := (Nat.one_mul _).symm
    _ ≤ t.lines * t.columns := Nat.mul_le_mul_right _ hl
  refine ⟨?_, ?_, ?_⟩
  · simp only [Term.putChar, Term.scrollOne]
    split_ifs <;> rfl
  · simp only [Term.putChar, Term.scrollOne]
    split_ifs <;> rfl
  · simp only [Term.putChar, Term.scrollOne]
    split_ifs
    · simpa using hg
    · simpa using hg
    · simp only [List.length_append, List.length_drop, List.length_replicate,
        List.length_set]
      omega

/-- Every action preserves the terminal dimensions and the row-major grid
size, provided the screen has at least one line (scrolling drops one full
row and appends one full row). -/
theorem applyAction_preserve (t : Term) (a : TermAction)
    (hl : 1 ≤ t.lines) (hg : t.grid.length = t.lines * t.columns) :
    (t.applyAction a).lines = t.lines ∧
    (t.applyAction a).columns = t.columns ∧
    (t.applyAction a).grid.length = t.lines * t.columns := by
  have hcols : t.columns ≤ t.grid.length := by
    rw [hg]
    calc t.columns = 1 * t.columns := (Nat.one_mul _).symm
    _ ≤ t.lines * t.columns := Nat.mul_le_mul_right _ hl
  cases a with
  | input c => exact putChar_preserve t c hl hg
  | goto row col => exact ⟨rfl, rfl, hg⟩
  | linefeed =>
    refine ⟨?_, ?_, ?_⟩
    · simp only [Term.applyAction, Term.scrollOne]
      split_ifs <;> rfl
    · simp only [Term.applyAction, Term.scrollOne]
      split_ifs <;> rfl
    · simp only [Term.applyAction, Term.scrollOne]
      split_ifs
      · exact hg
      · simp only [List.length_append, List.length_drop, List.length_replicate]
        omega
  | carriageReturn => exact ⟨rfl, rfl, hg⟩
  | clearScreen mode => exact ⟨rfl, rfl, by simp [Term.applyAction]⟩
  | setPrivateMode n => exact ⟨rfl, rfl, hg⟩
  | unsetPrivateMode n => exact ⟨rfl, rfl, hg⟩
  | other => exact ⟨rfl, rfl, hg⟩

/-- `Term::process` preserves the dimensions and the grid size. -/
theorem processByte_preserve (st : PState) (t : Term) (b : Nat)
    (hl : 1 ≤ t.lines) (hg : t.grid.length = t.lines * t.columns) :
    (processByte st t b).2.lines = t.lines ∧
    (processByte st t b).2.columns = t.columns ∧
    (processByte st t b).2.grid.length = t.lines * t.columns := by
  unfold processByte
  cases hp : parseByte st b with
  | mk st2 a? =>
    cases a? with
    | none => exact ⟨rfl, rfl, hg⟩
    | some a => exact applyAction_preserve t a hl hg

/-- Processing any byte stream preserves the dimensions and the grid
size. -/
theorem processAll_preserve (B : List Nat) :
    ∀ (st : PState) (t : Term), 1 ≤ t.lines →
    t.grid.length = t.lines * t.columns →
    (processAll st t B).2.lines = t.lines ∧
    (processAll st t B).2.columns = t.columns ∧
    (processAll st t B).2.grid.length = t.lines * t.columns := by
  induction B with
  | nil => intro st t _ hg; exact ⟨rfl, rfl, hg⟩
  | cons b rest ih =>
    intro st t hl hg
    have hstep := processByte_preserve st t b hl hg
    have hrest := ih (processByte st t b).1 (processByte st t b).2
      (hstep.1 ▸ hl) (by rw [hstep.2.2, hstep.1, hstep.2.1])
    have hfold : processAll st t (b :: rest) =
        processAll (processByte st t b).1 (processByte st t b).2 rest := rfl
    rw [hfold]
    exact ⟨by rw [hrest.1, hstep.1], by rw [hrest.2.1, hstep.2.1],
      by rw [hrest.2.2, hstep.1, hstep.2.1]⟩

/-- C3 (spec-modelled emulator): feeding any finite byte stream to a fresh
`Term` of `L ≥ 1` lines and `C ≥ 1` columns and calling `current_screen`
yields a `Screen` with exactly `L·C` cells; as the stream is universally
quantified, this holds for the snapshot taken at every prefix of a
stream. -/
theorem emulate_cell_count (B : List Nat) (L C : Nat)
    (hL : 1 ≤ L) (_hC : 1 ≤ C) :
    (emulate L C B).cells.length = L * C ∧
    (emulate L C B).lines = L ∧ (emulate L C B).columns = C := by
  have hbase : (Term.new L C).grid.length = (Term.new L C).lines * (Term.new L C).columns := by
    simp [Term.new]
  have h := processAll_preserve B .ground (Term.new L C) hL hbase
  unfold emulate currentScreen
  refine ⟨?_, ?_, ?_⟩
  · simpa using h.2.2
  · exact h.1
  · exact h.2.1

/-- Witness for `emulate_cell_count`: an `hi` stream on a 2×3 terminal
snapshots to 6 cells. -/
theorem emulate_cell_count_witness :
    (emulate 2 3 [0x68, 0x69]).cells.length = 2 * 3 ∧
    (emulate 2 3 [0x68, 0x69]).lines = 2 ∧
    (emulate 2 3 [0x68, 0x69]).columns = 3 :=
  emulate_cell_count [0x68, 0x69] 2 3 (by decide) (by decide)

/-- The 10×10 terminal pre-filled with `X`, cursor at the origin. -/
def preFilledX : Term :=
  { lines := 10
  , columns := 10
  , cursorRow := 0
  , cursorCol := 0
  , grid := List.replicate 100 'X' }

/-- C4: the callback of `process_with_callback` fires exactly for the
distinguished actions — any `clear_screen`, DECSET 1049 and DECRST 1049 —
and for no other action; and feeding `"\x1B[H\x1B[2J"` to the 10×10
terminal pre-filled with `X` invokes the callback exactly once, with the
pre-transition terminal still showing all 100 `X`es, after which all 100
cells are spaces. -/
theorem process_with_callback_distinguished :
    (∀ a : TermAction, signalsOf a ≠ [] ↔
      ((∃ m, a = .clearScreen m) ∨
        a = .setPrivateMode swapScreenAndSetRestoreCursor ∨
        a = .unsetPrivateMode swapScreenAndSetRestoreCursor)) ∧
    (processAllCb .ground preFilledX
        [0x1B, 0x5B, 0x48, 0x1B, 0x5B, 0x32, 0x4A]).2.2 =
      [(preFilledX, .clearScreen)] ∧
    preFilledX.grid = List.replicate 100 'X' ∧
    (processAllCb .ground preFilledX
        [0x1B, 0x5B, 0x48, 0x1B, 0x5B, 0x32, 0x4A]).2.1.grid =
      List.replicate 100 ' ' := by
  refine ⟨?_, by decide, by decide, by decide⟩
  intro a
  cases a with
  | clearScreen m => simp [signalsOf]
  | setPrivateMode n =>
    by_cases h : n = swapScreenAndSetRestoreCursor <;>
      simp [signalsOf, h]
  | unsetPrivateMode n =>
    by_cases h : n = swapScreenAndSetRestoreCursor <;>
      simp [signalsOf, h]
  | input c => simp [signalsOf]
  | goto r c => simp [signalsOf]
  | linefeed => simp [signalsOf]
  | carriageReturn => simp [signalsOf]
  | other => simp [signalsOf]

/-! ## SVG document assembly (termsnap-lib/src/lib.rs, Svg::fmt)

The remaining pieces of `Svg::fmt`: the per-row text-run extraction and the
overall document.  `f32` metric arithmetic is modelled with exact rationals
(the claim under consideration is determinism of the rendering, which is
unaffected by the numeric representation), and elements carry their
attribute data; serializing them to bytes is a fixed function of this
data. -/

/-- Style drawn on a text run (struct `TextStyle`). -/
structure TextStyle where
  fg : Rgb
  bold : Bool
  italic : Bool
  underline : Bool
  strikethrough : Bool
deriving DecidableEq, Repr

/-- Function `TextStyle::from_cell`. -/
def styleOfCell (cell : Cell) : TextStyle :=
  { fg := cell.fg
  , bold := cell.bold
  , italic := cell.italic
  , underline := cell.underline
  , strikethrough := cell.strikethrough }

/-- One emitted `<text>` element as produced by `fmt_text`: position,
style, `textLength` in cells after trimming, and the encoded body. -/
structure TextElem where
  x : Nat
  y : Nat
  style : TextStyle
  textLength : Nat
  body : List Char
deriving DecidableEq, Repr

/-- Build the `<text>` element `fmt_text` emits for a flushed run. -/
def mkTextElem (x y : Nat) (style : TextStyle) (line : List Char) : TextElem :=
  { x := x
  , y := y
  , style := style
  , textLength := (trimTrailing line).length
  , body := fmtTextBody line }

/-- One column step of the text loop in `Svg::fmt`: on a style change flush
the non-empty run; a run restarting on a space merely advances `start_x`.
The accumulator is `(style, start_x, text_line, emitted)`. -/
def textRowStep (s : Screen) (y : Nat)
    (acc : TextStyle × Nat × List Char × List TextElem) (x : Nat) :
    TextStyle × Nat × List Char × List TextElem :=
  match acc with
  | (style, startX, line, out) =>
    let cell := s.cellAt y x
    let style2 := styleOfCell cell
    match (if style2 ≠ style then
            (style2, startX, ([] : List Char),
             if line.isEmpty then out
             else out ++ [mkTextElem startX y style line])
          else (style, startX, line, out)) with
    | (st, sx, ln, o) =>
      if ln.isEmpty then
        if cell.c = ' ' then (st, x, ln, o)
        else (st, x, [cell.c], o)
      else (st, sx, ln ++ [cell.c], o)

/-- The `<text>` elements emitted for row `y`: fold the columns and flush
the final non-empty run. -/
def textRow (s : Screen) (y : Nat) : List TextElem :=
  match (List.range s.columns).foldl (textRowStep s y)
      (styleOfCell (s.cellAt y 0), 0, ([] : List Char), ([] : List TextElem)) with
  | (style, startX, line, out) =>
    if line.isEmpty then out else out ++ [mkTextElem startX y style line]

/-- All `<text>` elements of the screen, row by row. -/
def textElems (s : Screen) : List TextElem :=
  (List.range s.lines).flatMap (fun y => textRow s y)

/-- Font metrics (struct `FontMetrics`), with the `f32` fields as exact
rationals. -/
structure FontMetrics where
  unitsPerEm : ℚ
  advance : ℚ
  lineHeight : ℚ
  descent : ℚ
deriving DecidableEq, Repr

/-- Metrics at a specific font size (struct `CalculatedFontMetrics`). -/
structure CalculatedFontMetrics where
  advance : ℚ
  lineHeight : ℚ
  descent : ℚ
deriving DecidableEq, Repr

/-- Method `FontMetrics::at_font_size`. -/
def FontMetrics.atFontSize (fm : FontMetrics) (fontSize : ℚ) :
    CalculatedFontMetrics :=
  let scaleFactor := fontSize / fm.unitsPerEm
  { advance := fm.advance * scaleFactor
  , lineHeight := fm.lineHeight * scaleFactor
  , descent := fm.descent * scaleFactor }

/-- Constant `FONT_SIZE_PX = 12`. -/
def FONT_SIZE_PX : ℚ := 12

/-- The data of the rendered SVG document in emission order: viewBox
dimensions, font list, the majority background with its full-screen
rectangle, the coalesced background rectangles, and the text elements. -/
structure SvgDoc where
  viewBoxW : ℚ
  viewBoxH : ℚ
  fonts : List String
  mainBg : Rgb
  backgroundRect : BgRect
  rects : List BgRect
  texts : List TextElem
deriving DecidableEq, Repr

/-- The document `Screen::to_svg` renders (the body of `Svg::fmt`): one
majority-background rectangle over the whole viewBox (corner coordinates
saturating at 0), the greedy rectangles, then the text runs. -/
def svgRender (s : Screen) (fonts : List String) (fm : FontMetrics) : SvgDoc :=
  let m := fm.atFontSize FONT_SIZE_PX
  let mainBg := mostCommonColor s
  { viewBoxW := (s.columns : ℚ) * m.advance
  , viewBoxH := (s.lines : ℚ) * m.lineHeight
  , fonts := fonts
  , mainBg := mainBg
  , backgroundRect := ⟨0, 0, s.columns - 1, s.lines - 1, mainBg⟩
  , rects := svgRects s mainBg
  , texts := textElems s }

/-- C8: rendering is deterministic — the SVG document, including the
majority-background choice with its tie-break, is a pure function of the
screen, the font list and the font metrics, so two renderings of the same
snapshot agree byte for byte. -/
theorem svg_render_deterministic (s1 s2 : Screen) (fonts : List String)
    (fm : FontMetrics) (h : s1 = s2) :
    svgRender s1 fonts fm = svgRender s2 fonts fm ∧
    mostCommonColor s1 = mostCommonColor s2 := by
  subst h
  exact ⟨rfl, rfl⟩

/-- Witness for `svg_render_deterministic` on the concrete 2×3 screen with
the default metrics. -/
theorem svg_render_deterministic_witness :
    svgRender screen2x3 ["monospace"] ⟨1000, 600, 1200, 300⟩ =
      svgRender screen2x3 ["monospace"] ⟨1000, 600, 1200, 300⟩ ∧
    mostCommonColor screen2x3 = mostCommonColor screen2x3 :=
  svg_render_deterministic screen2x3 screen2x3 ["monospace"]
    ⟨1000, 600, 1200, 300⟩ rfl
